import Mathlib

/-!
Shallow embedding of the RAG ingestion/search core of the repository
(`src/app/database.py`, `src/ingest.py`) and proofs of the specified
properties of `KnowledgeBase.__init__`, `KnowledgeBase.get_embeddings_batch`,
`KnowledgeBase.upsert_documents`, `KnowledgeBase.search` and
`ingest.load_data`.

External collaborators (the Gemini embedding provider and the Qdrant index)
are modelled as oracles: functions supplied as parameters that return either
a successful value or an error, mirroring a remote call that returns or
raises.  Vector entries are kept abstract in a type parameter `V` (the code
never inspects the floats; it only measures lengths and forwards vectors).
-/

set_option maxHeartbeats 1000000

namespace RagCore

/-- Python scalar values that can appear in a JSON metadata mapping /
point payload (`str`, numbers, `bool`). -/
inductive JValue where
  | str (s : String)
  | num (n : Int)
  | bool (b : Bool)
deriving DecidableEq, Repr

/-- Rendering of a `JValue` into an f-string, as Python `str()` would. -/
def pyStr : JValue → String
  | .str s => s
  | .num n => toString n
  | .bool b => if b then "True" else "False"

/-- A Python `dict` with string keys, modelled as an association list in
insertion order (Python dicts preserve insertion order; keys are unique). -/
abbrev Dict := List (String × JValue)

/-- `d.get(k)` / `d[k]` lookup: the value of the (first) entry with key `k`. -/
def dictGet (d : Dict) (k : String) : Option JValue :=
  (d.find? (fun p => p.1 == k)).map (·.2)

/-- `d[k] = v` on a Python dict: overwrite the existing entry for `k` in
place, or append a new entry at the end. -/
def dictSet (d : Dict) (k : String) (v : JValue) : Dict :=
  if d.any (fun p => p.1 == k) then
    d.map (fun p => if p.1 == k then (k, v) else p)
  else
    d ++ [(k, v)]

/-- The payload literal `{"text": doc, **meta}` of
`KnowledgeBase.upsert_documents` (src/app/database.py line 107): start from
the dict with the single entry `"text" ↦ doc`, then insert the entries of
`meta` in order, later writes overwriting earlier ones. -/
def mkPayload (doc : String) (meta : Dict) : Dict :=
  meta.foldl (fun d p => dictSet d p.1 p.2) [("text", JValue.str doc)]

/-! ### The embedding provider and `get_embeddings_batch` -/

/-- Result of one `genai.embed_content` call: a list of vectors, a transient
(rate-limit / quota / resource) exception whose message matches the
`"429" in str(e) or "quota" in ... or "resource" in ...` test, or any other
exception. -/
inductive ProviderResult (V : Type) where
  | ok (vectors : List V)
  | transient (msg : String)
  | fatal (msg : String)
deriving DecidableEq, Repr

/-- Terminal outcome of `get_embeddings_batch`: returned vectors, a
propagated non-retryable exception, or the retry-exhausted
`Exception("Failed to get embeddings after retries")`. -/
inductive EmbedOutcome (V : Type) where
  | success (vectors : List V)
  | fatal (msg : String)
  | exhausted
deriving DecidableEq, Repr

/-- One execution of `get_embeddings_batch`, recording the outcome, the
sequence of `time.sleep` waits performed (in seconds, in order), and the
number of provider calls (attempts) made. -/
structure EmbedRun (V : Type) where
  outcome : EmbedOutcome V
  waits : List Nat
  attempts : Nat
deriving DecidableEq, Repr

/-- The `for attempt in range(retries)` loop body of
`get_embeddings_batch` (src/app/database.py lines 62-82).  `provider k` is
what the `genai.embed_content` call raises/returns on attempt `k`;
`remaining` is the number of loop iterations left.  A transient error waits
`(attempt + 1) * 10` seconds and continues; any other error propagates at
once; falling off the loop is the exhausted case. -/
def getEmbedAux (provider : Nat → ProviderResult V) (attempt : Nat) :
    Nat → EmbedRun V
  | 0 => ⟨.exhausted, [], 0⟩
  | remaining + 1 =>
    match provider attempt with
    | .ok vs => ⟨.success vs, [], 1⟩
    | .transient _ =>
      let r := getEmbedAux provider (attempt + 1) remaining
      ⟨r.outcome, (attempt + 1) * 10 :: r.waits, r.attempts + 1⟩
    | .fatal m => ⟨.fatal m, [], 1⟩

/-- `get_embeddings_batch(texts)` with the default `retries=3`. -/
def getEmbeddingsBatch (provider : Nat → ProviderResult V) : EmbedRun V :=
  getEmbedAux provider 0 3

/-- Message of the terminal exception raised when all retries fail. -/
def retriesExhaustedMsg : String := "Failed to get embeddings after retries"

/-- View of an embedding run as the exception/return seen by the caller. -/
def embedResult (r : EmbedRun V) : Except String (List V) :=
  match r.outcome with
  | .success vs => .ok vs
  | .fatal m => .error m
  | .exhausted => .error retriesExhaustedMsg

/-- Unfolding lemma: one loop iteration of `get_embeddings_batch`. -/
theorem getEmbedAux_succ (provider : Nat → ProviderResult V) (attempt remaining : Nat) :
    getEmbedAux provider attempt (remaining + 1) =
      match provider attempt with
      | .ok vs => ⟨.success vs, [], 1⟩
      | .transient _ =>
        let r := getEmbedAux provider (attempt + 1) remaining
        ⟨r.outcome, (attempt + 1) * 10 :: r.waits, r.attempts + 1⟩
      | .fatal m => ⟨.fatal m, [], 1⟩ := rfl

/-- C3: if the provider raises a transient (rate-limit/quota/resource)
error on every attempt, `get_embeddings_batch` makes exactly 3 attempts,
sleeps 10, 20 and 30 seconds after attempts 1, 2 and 3 respectively (no
4th wait), and then raises the terminal
`"Failed to get embeddings after retries"` exception, distinct from a
single-attempt provider error. -/
theorem getEmbeddingsBatch_allTransient (provider : Nat → ProviderResult V)
    (h : ∀ k, k < 3 → ∃ m, provider k = .transient m) :
    getEmbeddingsBatch provider = ⟨.exhausted, [10, 20, 30], 3⟩ ∧
      embedResult (getEmbeddingsBatch provider) = .error retriesExhaustedMsg := by
  obtain ⟨m0, h0⟩ := h 0 (by omega)
  obtain ⟨m1, h1⟩ := h 1 (by omega)
  obtain ⟨m2, h2⟩ := h 2 (by omega)
  have hrun : getEmbeddingsBatch provider = ⟨.exhausted, [10, 20, 30], 3⟩ := by
    simp [getEmbeddingsBatch, getEmbedAux_succ, h0, h1, h2, getEmbedAux]
  exact ⟨hrun, by rw [hrun]; rfl⟩

/-- Witness for C3 at the concrete provider that always answers with a
rate-limit error. -/
theorem getEmbeddingsBatch_allTransient_witness :
    getEmbeddingsBatch (fun _ => (.transient "429" : ProviderResult Unit)) =
        ⟨.exhausted, [10, 20, 30], 3⟩ ∧
      embedResult (getEmbeddingsBatch (fun _ => (.transient "429" : ProviderResult Unit))) =
        .error retriesExhaustedMsg :=
  getEmbeddingsBatch_allTransient _ (fun _ _ => ⟨"429", rfl⟩)

/-- C6: a non-transient provider error on attempt `k` propagates
immediately: no wait is performed for that attempt (the recorded waits are
exactly those of the `k` earlier transient attempts) and no further
attempt is made (`k + 1` attempts in total). -/
theorem getEmbeddingsBatch_fatal_noRetry (provider : Nat → ProviderResult V)
    (k : Nat) (hk : k < 3) (m : String)
    (htr : ∀ j, j < k → ∃ s, provider j = .transient s)
    (hf : provider k = .fatal m) :
    getEmbeddingsBatch provider =
        ⟨.fatal m, (List.range k).map (fun j => (j + 1) * 10), k + 1⟩ ∧
      embedResult (getEmbeddingsBatch provider) = .error m := by
  have hrun : getEmbeddingsBatch provider =
      ⟨.fatal m, (List.range k).map (fun j => (j + 1) * 10), k + 1⟩ := by
    interval_cases k
    · simp [getEmbeddingsBatch, getEmbedAux_succ, hf]
    · obtain ⟨s0, h0⟩ := htr 0 (by omega)
      simp [getEmbeddingsBatch, getEmbedAux_succ, h0, hf, List.range_succ, List.range_zero]
    · obtain ⟨s0, h0⟩ := htr 0 (by omega)
      obtain ⟨s1, h1⟩ := htr 1 (by omega)
      simp [getEmbeddingsBatch, getEmbedAux_succ, h0, h1, hf, List.range_succ, List.range_zero]
  exact ⟨hrun, by rw [hrun]; rfl⟩

/-- Witness for C6: one transient answer, then a fatal error on the second
attempt—the run stops after 2 attempts with only the first wait recorded. -/
theorem getEmbeddingsBatch_fatal_noRetry_witness :
    getEmbeddingsBatch
        (fun k => if k = 0 then .transient "quota" else (.fatal "bad request" : ProviderResult Unit)) =
        ⟨.fatal "bad request", (List.range 1).map (fun j => (j + 1) * 10), 2⟩ ∧
      embedResult (getEmbeddingsBatch
        (fun k => if k = 0 then .transient "quota" else (.fatal "bad request" : ProviderResult Unit))) =
        .error "bad request" :=
  getEmbeddingsBatch_fatal_noRetry _ 1 (by omega) "bad request"
    (fun j hj => by interval_cases j; exact ⟨"quota", rfl⟩) rfl

/-! ### `upsert_documents`: batching, point construction, failure isolation -/

/-- A Qdrant `PointStruct(id=..., vector=..., payload=...)`. -/
structure Point (V : Type) where
  id : String
  vector : V
  payload : Dict
deriving DecidableEq, Repr

/-- The Python slice `l[i : i + n]`. -/
def sliceTake (l : List α) (i n : Nat) : List α :=
  (l.drop i).take n

/-- Python `range(0, stop, step)` for `step > 0`: the multiples of `step`
below `stop`, i.e. `step * 0, step * 1, …`, of which there are
`⌈stop / step⌉`. -/
def rangeStep (stop step : Nat) : List Nat :=
  (List.range ((stop + step - 1) / step)).map (· * step)

/-- `BATCH_SIZE = 10` of `upsert_documents`. -/
def BATCH_SIZE : Nat := 10

/-- The point list built inside a batch: `zip` over the batch documents,
metadatas, ids and returned vectors, each point carrying the payload
`{"text": doc, **meta}`.  As in the source, `zip` stops at the shortest of
the four lists. -/
def mkPoints (bdocs : List String) (bmetas : List Dict) (bids : List String)
    (vectors : List V) : List (Point V) :=
  (bdocs.zip (bmetas.zip (bids.zip vectors))).map
    (fun q => ⟨q.2.2.1, q.2.2.2, mkPayload q.1 q.2.1⟩)

/-- The `try:` block of one batch iteration of `upsert_documents`
(src/app/database.py lines 99-116): call `get_embeddings_batch` (`embed`),
build the points, then `client.upsert` (`write`), any raised exception
becoming the `.error` case that the surrounding `except` catches. -/
def runBatch (embed : List String → Except String (List V))
    (write : List (Point V) → Except String Unit)
    (bdocs : List String) (bmetas : List Dict) (bids : List String) :
    Except String (List (Point V)) :=
  match embed bdocs with
  | .error e => .error e
  | .ok vectors =>
    match write (mkPoints bdocs bmetas bids vectors) with
    | .error e => .error e
    | .ok _ => .ok (mkPoints bdocs bmetas bids vectors)

/-- `upsert_documents(documents, metadatas, ids)`: iterate
`for i in range(0, total_docs, BATCH_SIZE)` over the three parallel lists;
each batch is attempted independently and its exception, if any, is caught
and logged — the loop always continues to the next batch.  The result
records, per batch start index, the points upserted or the error caught. -/
def upsertDocuments (embed : List String → Except String (List V))
    (write : List (Point V) → Except String Unit)
    (documents : List String) (metadatas : List Dict) (ids : List String) :
    List (Nat × Except String (List (Point V))) :=
  (rangeStep documents.length BATCH_SIZE).map
    (fun i => (i, runBatch embed write (sliceTake documents i BATCH_SIZE)
      (sliceTake metadatas i BATCH_SIZE) (sliceTake ids i BATCH_SIZE)))

/-- Number of documents durably stored by a run of `upsert_documents`. -/
def storedCount (r : List (Nat × Except String (List (Point V)))) : Nat :=
  (r.map (fun e => match e.2 with | .ok ps => ps.length | .error _ => 0)).sum

/-- Number of documents belonging to the failed batches of a run. -/
def failedCount (documents : List String)
    (r : List (Nat × Except String (List (Point V)))) : Nat :=
  (r.map (fun e => match e.2 with
    | .ok _ => 0
    | .error _ => (sliceTake documents e.1 BATCH_SIZE).length)).sum

/-- Reference chunking of a list into consecutive runs of `BATCH_SIZE`. -/
def chunks10 (l : List α) : List (List α) :=
  if l.isEmpty then [] else l.take BATCH_SIZE :: chunks10 (l.drop BATCH_SIZE)
termination_by l.length
decreasing_by
  simp only [List.length_drop]
  cases l with
  | nil => simp at *
  | cons a t => simp [BATCH_SIZE]; omega

theorem chunks10_nil : chunks10 ([] : List α) = [] := by
  rw [chunks10]; rfl

theorem chunks10_cons (a : α) (t : List α) :
    chunks10 (a :: t) =
      (a :: t).take BATCH_SIZE :: chunks10 ((a :: t).drop BATCH_SIZE) := by
  rw [chunks10]; rfl

/-- Concatenating the chunks gives back the input list. -/
theorem chunks10_flatten (l : List α) : (chunks10 l).flatten = l := by
  have H : ∀ (n : Nat) (l : List α), l.length ≤ n → (chunks10 l).flatten = l := by
    intro n
    induction n with
    | zero =>
      intro l hl
      rw [List.length_eq_zero.mp (Nat.le_zero.mp hl), chunks10_nil]
      rfl
    | succ n ih =>
      intro l hl
      cases l with
      | nil => simp [chunks10_nil]
      | cons a t =>
        rw [chunks10_cons]
        simp only [List.flatten_cons]
        rw [ih _ (by simp only [List.length_drop, List.length_cons] at *
                     simp [BATCH_SIZE]; omega)]
        exact List.take_append_drop _ _
  exact H l.length l le_rfl

/-- There are `⌈n / 10⌉` chunks. -/
theorem chunks10_length (l : List α) :
    (chunks10 l).length = (l.length + BATCH_SIZE - 1) / BATCH_SIZE := by
  have H : ∀ (n : Nat) (l : List α), l.length ≤ n →
      (chunks10 l).length = (l.length + BATCH_SIZE - 1) / BATCH_SIZE := by
    intro n
    induction n with
    | zero =>
      intro l hl
      rw [List.length_eq_zero.mp (Nat.le_zero.mp hl), chunks10_nil]
      simp [BATCH_SIZE]
    | succ n ih =>
      intro l hl
      cases l with
      | nil => simp [chunks10_nil, BATCH_SIZE]
      | cons a t =>
        rw [chunks10_cons]
        simp only [List.length_cons]
        rw [ih _ (by simp only [List.length_drop, List.length_cons] at *
                     simp [BATCH_SIZE]; omega)]
        simp only [List.length_drop, List.length_cons, BATCH_SIZE]
        omega
  exact H l.length l le_rfl

/-- Peeling one batch off the loop index list `range(0, n, BATCH_SIZE)`
for nonempty input. -/
theorem rangeStep_batch_pos (n : Nat) (hn : 0 < n) :
    rangeStep n BATCH_SIZE =
      0 :: (rangeStep (n - BATCH_SIZE) BATCH_SIZE).map (· + BATCH_SIZE) := by
  have hdiv : (n + BATCH_SIZE - 1) / BATCH_SIZE =
      (n - BATCH_SIZE + BATCH_SIZE - 1) / BATCH_SIZE + 1 := by
    simp only [BATCH_SIZE]
    omega
  rw [rangeStep, rangeStep, hdiv, List.range_succ_eq_map]
  simp only [List.map_cons, Nat.zero_mul, List.map_map]
  congr 1
  refine List.map_congr_left (fun b _ => ?_)
  simp only [Function.comp, Nat.succ_eq_add_one]
  ring

/-- The batch slices taken by the `range(0, total_docs, BATCH_SIZE)` loop
are exactly the consecutive chunks of the input. -/
theorem batchSlices_eq_chunks10 (l : List α) :
    (rangeStep l.length BATCH_SIZE).map (fun i => sliceTake l i BATCH_SIZE) =
      chunks10 l := by
  have H : ∀ (n : Nat) (l : List α), l.length ≤ n →
      (rangeStep l.length BATCH_SIZE).map (fun i => sliceTake l i BATCH_SIZE) =
        chunks10 l := by
    intro n
    induction n with
    | zero =>
      intro l hl
      rw [List.length_eq_zero.mp (Nat.le_zero.mp hl)]
      simp [rangeStep, chunks10_nil, BATCH_SIZE]
    | succ n ih =>
      intro l hl
      cases l with
      | nil => simp [rangeStep, chunks10_nil, BATCH_SIZE]
      | cons a t =>
        rw [chunks10_cons, rangeStep_batch_pos _ (by simp)]
        simp only [List.map_cons, List.map_map]
        congr 1
        rw [← ih ((a :: t).drop BATCH_SIZE)
          (by simp only [List.length_drop, List.length_cons, BATCH_SIZE] at *
              omega)]
        simp only [List.length_drop, List.length_cons]
        refine List.map_congr_left (fun b _ => ?_)
        simp only [Function.comp, sliceTake, List.drop_drop]
        rw [Nat.add_comm b BATCH_SIZE]
  exact H l.length l le_rfl

/-- C5: `upsert_documents` on `N` documents issues exactly `⌈N / 10⌉`
embedding-client calls — one `get_embeddings_batch` call per entry of the
returned run, whose length is `⌈N / BATCH_SIZE⌉` — and the batches are the
contiguous, order-preserving slices of the input: concatenating the batch
document slices in order gives back exactly the input document list. -/
theorem upsertDocuments_batching (embed : List String → Except String (List V))
    (write : List (Point V) → Except String Unit)
    (documents : List String) (metadatas : List Dict) (ids : List String) :
    (upsertDocuments embed write documents metadatas ids).length =
        (documents.length + BATCH_SIZE - 1) / BATCH_SIZE ∧
      ((upsertDocuments embed write documents metadatas ids).map
          (fun e => sliceTake documents e.1 BATCH_SIZE)).flatten = documents := by
  constructor
  · simp [upsertDocuments, rangeStep]
  · rw [upsertDocuments, List.map_map]
    show ((rangeStep documents.length BATCH_SIZE).map
        (fun i => sliceTake documents i BATCH_SIZE)).flatten = documents
    rw [batchSlices_eq_chunks10]
    exact chunks10_flatten documents

/-- `l[i : i + n]` has length `min n (l.length - i)`. -/
theorem sliceTake_length (l : List α) (i n : Nat) :
    (sliceTake l i n).length = min n (l.length - i) := by
  simp [sliceTake]

/-- `zip` stops at the shortest list, so with parallel metadata/id lists the
point count is `min` of the document and vector counts. -/
theorem mkPoints_length (bdocs : List String) (bmetas : List Dict)
    (bids : List String) (vectors : List V)
    (hm : bmetas.length = bdocs.length) (hi : bids.length = bdocs.length) :
    (mkPoints bdocs bmetas bids vectors).length =
      min bdocs.length vectors.length := by
  simp only [mkPoints, List.length_map, List.length_zip, hm, hi]
  omega

/-- A successfully completed batch stored exactly the points built from the
embedding call's vectors. -/
theorem runBatch_ok_inv (embed : List String → Except String (List V))
    (write : List (Point V) → Except String Unit)
    (bdocs : List String) (bmetas : List Dict) (bids : List String)
    (ps : List (Point V))
    (h : runBatch embed write bdocs bmetas bids = .ok ps) :
    ∃ vectors, embed bdocs = .ok vectors ∧
      ps = mkPoints bdocs bmetas bids vectors := by
  unfold runBatch at h
  split at h
  · simp at h
  · rename_i vectors hemb
    split at h
    · simp at h
    · cases h
      exact ⟨vectors, hemb, rfl⟩

theorem sum_map_add (l : List α) (f g : α → Nat) :
    (l.map (fun x => f x + g x)).sum = (l.map f).sum + (l.map g).sum := by
  induction l with
  | nil => rfl
  | cons a t ih => simp only [List.map_cons, List.sum_cons, ih]; omega

/-- The batch slices cover every input document exactly once. -/
theorem sum_batch_lengths (documents : List String) :
    ((rangeStep documents.length BATCH_SIZE).map
      (fun i => (sliceTake documents i BATCH_SIZE).length)).sum =
      documents.length := by
  have h1 : (rangeStep documents.length BATCH_SIZE).map
      (fun i => (sliceTake documents i BATCH_SIZE).length) =
      ((rangeStep documents.length BATCH_SIZE).map
        (fun i => sliceTake documents i BATCH_SIZE)).map List.length := by
    rw [List.map_map]; rfl
  rw [h1, batchSlices_eq_chunks10, ← List.length_flatten, chunks10_flatten]

/-- Stored plus failed documents account for every start index, whatever
each batch's outcome is, provided a successful batch stores one point per
batch document. -/
theorem stored_failed_sum (documents : List String) (starts : List Nat)
    (F : Nat → Except String (List (Point V)))
    (hF : ∀ i ps, F i = .ok ps →
      ps.length = (sliceTake documents i BATCH_SIZE).length) :
    storedCount (starts.map (fun i => (i, F i))) +
        failedCount documents (starts.map (fun i => (i, F i))) =
      (starts.map (fun i => (sliceTake documents i BATCH_SIZE).length)).sum := by
  induction starts with
  | nil => rfl
  | cons a t ih =>
    simp only [List.map_cons, storedCount, failedCount, List.sum_cons] at *
    cases hFa : F a with
    | ok ps =>
      have := hF a ps hFa
      simp only [hFa]
      omega
    | error e =>
      simp only [hFa]
      omega

/-- C4: if a batch of `upsert_documents` raises (embedding retry
exhaustion or index write failure), the exception is caught and every
subsequent batch is still processed: the run keeps one entry per batch —
all `⌈N / BATCH_SIZE⌉` of them, it never aborts early — and the stored
document count equals the total document count minus the count of
documents in the failed batches. -/
theorem upsertDocuments_failureIsolation
    (embed : List String → Except String (List V))
    (write : List (Point V) → Except String Unit)
    (documents : List String) (metadatas : List Dict) (ids : List String)
    (hm : metadatas.length = documents.length)
    (hi : ids.length = documents.length)
    (hembed : ∀ ts vs, embed ts = .ok vs → vs.length = ts.length) :
    (upsertDocuments embed write documents metadatas ids).length =
        (documents.length + BATCH_SIZE - 1) / BATCH_SIZE ∧
      storedCount (upsertDocuments embed write documents metadatas ids) +
          failedCount documents
            (upsertDocuments embed write documents metadatas ids) =
        documents.length ∧
      storedCount (upsertDocuments embed write documents metadatas ids) =
        documents.length -
          failedCount documents
            (upsertDocuments embed write documents metadatas ids) := by
  have hF : ∀ i ps, runBatch embed write (sliceTake documents i BATCH_SIZE)
      (sliceTake metadatas i BATCH_SIZE) (sliceTake ids i BATCH_SIZE) = .ok ps →
      ps.length = (sliceTake documents i BATCH_SIZE).length := by
    intro i ps hok
    obtain ⟨vectors, hemb, hps⟩ := runBatch_ok_inv _ _ _ _ _ _ hok
    have hlen := hembed _ _ hemb
    have hm2 : (sliceTake metadatas i BATCH_SIZE).length =
        (sliceTake documents i BATCH_SIZE).length := by
      rw [sliceTake_length, sliceTake_length, hm]
    have hi2 : (sliceTake ids i BATCH_SIZE).length =
        (sliceTake documents i BATCH_SIZE).length := by
      rw [sliceTake_length, sliceTake_length, hi]
    rw [hps, mkPoints_length _ _ _ _ hm2 hi2, hlen, Nat.min_self]
  have hsum : storedCount (upsertDocuments embed write documents metadatas ids) +
      failedCount documents
        (upsertDocuments embed write documents metadatas ids) =
      documents.length := by
    have h2 := stored_failed_sum documents
      (rangeStep documents.length BATCH_SIZE)
      (fun i => runBatch embed write (sliceTake documents i BATCH_SIZE)
        (sliceTake metadatas i BATCH_SIZE) (sliceTake ids i BATCH_SIZE)) hF
    rw [upsertDocuments]
    rw [h2]
    exact sum_batch_lengths documents
  refine ⟨?_, hsum, by omega⟩
  simp [upsertDocuments, rangeStep]

/-- Witness for C4: 11 documents, two batches; the embedding call fails
with a rate-limit error on the 10-document batch and succeeds on the
1-document batch, so 1 = 11 - 10 documents end up stored and both batches
appear in the run. -/
theorem upsertDocuments_failureIsolation_witness :
    (upsertDocuments
          (fun ts => if ts.length < 2 then .ok (ts.map (fun _ => (0 : Nat)))
            else .error "429")
          (fun _ => .ok ()) (List.replicate 11 "doc")
          (List.replicate 11 ([] : Dict)) (List.replicate 11 "id")).length =
        ((List.replicate 11 "doc").length + BATCH_SIZE - 1) / BATCH_SIZE ∧
      storedCount (upsertDocuments
            (fun ts => if ts.length < 2 then .ok (ts.map (fun _ => (0 : Nat)))
              else .error "429")
            (fun _ => .ok ()) (List.replicate 11 "doc")
            (List.replicate 11 ([] : Dict)) (List.replicate 11 "id")) +
          failedCount (List.replicate 11 "doc")
            (upsertDocuments
              (fun ts => if ts.length < 2 then .ok (ts.map (fun _ => (0 : Nat)))
                else .error "429")
              (fun _ => .ok ()) (List.replicate 11 "doc")
              (List.replicate 11 ([] : Dict)) (List.replicate 11 "id")) =
        (List.replicate 11 "doc").length ∧
      storedCount (upsertDocuments
            (fun ts => if ts.length < 2 then .ok (ts.map (fun _ => (0 : Nat)))
              else .error "429")
            (fun _ => .ok ()) (List.replicate 11 "doc")
            (List.replicate 11 ([] : Dict)) (List.replicate 11 "id")) =
        (List.replicate 11 "doc").length -
          failedCount (List.replicate 11 "doc")
            (upsertDocuments
              (fun ts => if ts.length < 2 then .ok (ts.map (fun _ => (0 : Nat)))
                else .error "429")
              (fun _ => .ok ()) (List.replicate 11 "doc")
              (List.replicate 11 ([] : Dict)) (List.replicate 11 "id")) :=
  upsertDocuments_failureIsolation _ _ _ _ _ (by simp) (by simp)
    (by
      intro ts vs h
      by_cases hc : ts.length < 2
      · rw [if_pos hc] at h
        cases h
        simp
      · rw [if_neg hc] at h
        cases h)

/-- C9: when the embedding client returns fewer vectors than the batch has
documents, `zip` silently truncates: exactly `min(len(docs), len(vectors))`
points are built, and the batch still completes as a success (the truncated
point list is upserted and returned with no error), the excess documents
being dropped. -/
theorem mkPoints_zip_truncation
    (embed : List String → Except String (List V))
    (write : List (Point V) → Except String Unit)
    (bdocs : List String) (bmetas : List Dict) (bids : List String)
    (vectors : List V)
    (hm : bmetas.length = bdocs.length) (hi : bids.length = bdocs.length)
    (hembed : embed bdocs = .ok vectors)
    (hwrite : write (mkPoints bdocs bmetas bids vectors) = .ok ()) :
    (mkPoints bdocs bmetas bids vectors).length =
        min bdocs.length vectors.length ∧
      runBatch embed write bdocs bmetas bids =
        .ok (mkPoints bdocs bmetas bids vectors) := by
  refine ⟨mkPoints_length _ _ _ _ hm hi, ?_⟩
  unfold runBatch
  rw [hembed]
  show (match write (mkPoints bdocs bmetas bids vectors) with
    | .error e => Except.error e
    | .ok _ => Except.ok (mkPoints bdocs bmetas bids vectors)) =
    Except.ok (mkPoints bdocs bmetas bids vectors)
  rw [hwrite]

/-- Witness for C9: a 3-document batch receiving a single vector yields
exactly `min 3 1 = 1` stored point and a successful batch. -/
theorem mkPoints_zip_truncation_witness :
    (mkPoints ["a", "b", "c"] [[], [], []] ["1", "2", "3"]
          [(0 : Nat)]).length =
        min (["a", "b", "c"] : List String).length [(0 : Nat)].length ∧
      runBatch (fun _ => .ok [(0 : Nat)]) (fun _ => .ok ())
          ["a", "b", "c"] [[], [], []] ["1", "2", "3"] =
        .ok (mkPoints ["a", "b", "c"] [[], [], []] ["1", "2", "3"]
          [(0 : Nat)]) :=
  mkPoints_zip_truncation _ _ _ _ _ _ (by simp) (by simp) rfl rfl

/-! ### Python dict lemmas for the point payload -/

theorem dictGet_cons (p : String × JValue) (t : Dict) (k : String) :
    dictGet (p :: t) k = if p.1 == k then some p.2 else dictGet t k := by
  by_cases h : p.1 == k
  · simp [dictGet, List.find?_cons, h]
  · simp [dictGet, List.find?_cons, h]

theorem dictGet_eq_none_of_not_mem (d : Dict) (k : String)
    (h : ∀ q ∈ d, (q.1 == k) = false) : dictGet d k = none := by
  induction d with
  | nil => rfl
  | cons p t ih =>
    rw [dictGet_cons, if_neg (by simp [h p (by simp)])]
    exact ih (fun q hq => h q (by simp [hq]))

theorem dictGet_map_replace_ne (d : Dict) (k k' : String) (v : JValue)
    (hne : k' ≠ k) :
    dictGet (d.map (fun q => if q.1 == k then (k, v) else q)) k' =
      dictGet d k' := by
  induction d with
  | nil => rfl
  | cons p t ih =>
    simp only [List.map_cons]
    by_cases hp : p.1 == k
    · rw [if_pos hp, dictGet_cons, dictGet_cons]
      have h1 : (k == k') = false := by
        simp [(Ne.symm hne)]
      have h2 : (p.1 == k') = false := by
        have hpk : p.1 = k := by simpa using hp
        simp [hpk, (Ne.symm hne)]
      rw [if_neg (by simp [h1]), if_neg (by simp [h2])]
      exact ih
    · rw [if_neg hp, dictGet_cons, dictGet_cons]
      by_cases hp' : p.1 == k'
      · rw [if_pos hp', if_pos hp']
      · rw [if_neg hp', if_neg hp']
        exact ih

theorem dictGet_append_single_ne (d : Dict) (k k' : String) (v : JValue)
    (hne : k' ≠ k) :
    dictGet (d ++ [(k, v)]) k' = dictGet d k' := by
  induction d with
  | nil =>
    rw [List.nil_append, dictGet_cons, if_neg (by simp [Ne.symm hne])]
  | cons p t ih =>
    rw [List.cons_append, dictGet_cons, dictGet_cons]
    by_cases hp : p.1 == k'
    · rw [if_pos hp, if_pos hp]
    · rw [if_neg hp, if_neg hp]
      exact ih

theorem dictGet_map_replace_self (d : Dict) (k : String) (v : JValue)
    (h : d.any (fun q => q.1 == k) = true) :
    dictGet (d.map (fun q => if q.1 == k then (k, v) else q)) k = some v := by
  induction d with
  | nil => simp at h
  | cons p t ih =>
    simp only [List.map_cons]
    by_cases hp : p.1 == k
    · rw [if_pos hp, dictGet_cons, if_pos (by simp)]
    · rw [if_neg hp, dictGet_cons, if_neg hp]
      refine ih ?_
      rw [List.any_cons] at h
      simpa [hp] using h

theorem dictGet_append_single_self (d : Dict) (k : String) (v : JValue)
    (h : ∀ q ∈ d, (q.1 == k) = false) :
    dictGet (d ++ [(k, v)]) k = some v := by
  induction d with
  | nil =>
    rw [List.nil_append, dictGet_cons, if_pos (by simp)]
  | cons p t ih =>
    rw [List.cons_append, dictGet_cons, if_neg (by simp [h p (by simp)])]
    exact ih (fun q hq => h q (by simp [hq]))

/-- Writing key `k` into a dict makes `d[k]` read back the written value. -/
theorem dictGet_dictSet_self (d : Dict) (k : String) (v : JValue) :
    dictGet (dictSet d k v) k = some v := by
  rw [dictSet]
  by_cases h : d.any (fun p => p.1 == k)
  · rw [if_pos h]
    exact dictGet_map_replace_self d k v h
  · rw [if_neg h]
    refine dictGet_append_single_self d k v ?_
    intro q hq
    by_contra hq'
    exact h (List.any_eq_true.mpr ⟨q, hq, by simpa using hq'⟩)

/-- Writing key `k` leaves every other key's lookup unchanged. -/
theorem dictGet_dictSet_ne (d : Dict) (k k' : String) (v : JValue)
    (hne : k' ≠ k) :
    dictGet (dictSet d k v) k' = dictGet d k' := by
  rw [dictSet]
  by_cases h : d.any (fun p => p.1 == k)
  · rw [if_pos h]
    exact dictGet_map_replace_ne d k k' v hne
  · rw [if_neg h]
    exact dictGet_append_single_ne d k k' v hne

/-- Folding the entries of a duplicate-free dict `meta` into `d` with
`d[k] = v` writes: lookups afterwards prefer `meta`, falling back to `d`. -/
theorem dictGet_foldl_dictSet (meta : Dict) (d : Dict) (k : String)
    (hnd : (meta.map Prod.fst).Nodup) :
    dictGet (meta.foldl (fun acc p => dictSet acc p.1 p.2) d) k =
      Option.or (dictGet meta k) (dictGet d k) := by
  induction meta generalizing d with
  | nil => rfl
  | cons p t ih =>
    simp only [List.map_cons, List.nodup_cons] at hnd
    simp only [List.foldl_cons]
    rw [ih (dictSet d p.1 p.2) hnd.2, dictGet_cons]
    by_cases hp : p.1 == k
    · have hpk : p.1 = k := by simpa using hp
      have hnone : dictGet t k = none := by
        refine dictGet_eq_none_of_not_mem t k ?_
        intro q hq
        by_contra hq'
        have hqk : q.1 = k := by simpa using hq'
        refine absurd ?_ hnd.1
        rw [hpk, ← hqk]
        exact List.mem_map_of_mem Prod.fst hq
      rw [hnone, if_pos hp, hpk, dictGet_dictSet_self]
      rfl
    · have hpk : k ≠ p.1 := fun hh => hp (by simp [hh])
      rw [if_neg hp, dictGet_dictSet_ne d p.1 k p.2 hpk]

/-- C8: the stored payload is `{"text": doc, **meta}` with the metadata
spread after the text key, so when the metadata mapping itself contains a
`"text"` key, the metadata's value is what the payload's `"text"` entry
holds — it overwrites the document's actual text. -/
theorem mkPayload_metadata_overwrites_text (doc : String) (meta : Dict)
    (v : JValue) (hnd : (meta.map Prod.fst).Nodup)
    (hv : dictGet meta "text" = some v) :
    dictGet (mkPayload doc meta) "text" = some v ∧
      (v ≠ JValue.str doc →
        dictGet (mkPayload doc meta) "text" ≠ some (JValue.str doc)) := by
  have h1 : dictGet (mkPayload doc meta) "text" = some v := by
    rw [mkPayload, dictGet_foldl_dictSet meta _ _ hnd, hv]
    rfl
  refine ⟨h1, fun hne hcontra => hne ?_⟩
  rw [h1] at hcontra
  exact Option.some.inj hcontra

/-- Witness for C8: metadata `{"source": "x", "text": "META"}` makes the
stored payload's text `"META"`, not the document text `"DOC"`. -/
theorem mkPayload_metadata_overwrites_text_witness :
    dictGet (mkPayload "DOC" [("source", .str "x"), ("text", .str "META")])
        "text" = some (.str "META") ∧
      (JValue.str "META" ≠ JValue.str "DOC" →
        dictGet (mkPayload "DOC"
          [("source", .str "x"), ("text", .str "META")]) "text" ≠
          some (JValue.str "DOC")) :=
  mkPayload_metadata_overwrites_text "DOC"
    [("source", .str "x"), ("text", .str "META")] (.str "META")
    (by decide) rfl

/-! ### `KnowledgeBase.search` -/

/-- A Qdrant search hit; `search` only ever reads `hit.payload`. -/
structure Hit where
  payload : Dict
deriving DecidableEq, Repr

/-- Sentinel returned when the index yields zero hits. -/
def noInfoMsg : String := "No relevant information found in the knowledge base."

/-- Error string returned when any exception occurs during search. -/
def searchErrorMsg : String := "Error searching knowledge base."

/-- One hit's block: `"[Source: <source>]\n<text>"` with
`source = hit.payload.get('source', 'Unknown')` and
`text = hit.payload.get('text', '')`. -/
def formatHit (h : Hit) : String :=
  "[Source: " ++ pyStr ((dictGet h.payload "source").getD (.str "Unknown")) ++
    "]\n" ++ pyStr ((dictGet h.payload "text").getD (.str ""))

/-- `KnowledgeBase.search` (src/app/database.py lines 121-150): embed the
query (`embedQ` is what `genai.embed_content` returns or raises), run the
index query (`doSearch` is what `client.search` returns or raises), answer
the sentinel on zero hits, otherwise the hit blocks joined with blank
lines; the enclosing `try/except` turns any exception into the fixed error
string.  Being a total `String`-valued function, it models "never raises". -/
def search (embedQ : Except String (List V))
    (doSearch : List V → Except String (List Hit)) : String :=
  match embedQ with
  | .error _ => searchErrorMsg
  | .ok qv =>
    match doSearch qv with
    | .error _ => searchErrorMsg
    | .ok hits =>
      if hits.isEmpty then noInfoMsg
      else String.intercalate "\n\n" (hits.map formatHit)

/-- C1: `search` never raises — it is total, returning a string on every
path: when the index query succeeds with zero hits it returns the sentinel
`"No relevant information found in the knowledge base."`, and on either
failing path (query embedding raising, or the index search raising, e.g.
for a non-existent collection) it returns the textual error string
instead of throwing. -/
theorem search_never_raises (embedQ : Except String (List V))
    (doSearch : List V → Except String (List Hit)) :
    (∀ qv, embedQ = .ok qv → doSearch qv = .ok [] →
        search embedQ doSearch = noInfoMsg) ∧
      (∀ e, embedQ = .error e → search embedQ doSearch = searchErrorMsg) ∧
      (∀ qv e, embedQ = .ok qv → doSearch qv = .error e →
        search embedQ doSearch = searchErrorMsg) := by
  refine ⟨?_, ?_, ?_⟩
  · intro qv hq hs
    subst hq
    simp [search, hs]
  · intro e hq
    subst hq
    rfl
  · intro qv e hq hs
    subst hq
    simp [search, hs]

/-- Witness for C1: an empty collection (zero hits) yields the sentinel. -/
theorem search_never_raises_witness :
    search (Except.ok [(0 : Nat)]) (fun _ => Except.ok ([] : List Hit)) =
      noInfoMsg :=
  (search_never_raises (Except.ok [(0 : Nat)])
    (fun _ => Except.ok ([] : List Hit))).1 [(0 : Nat)] rfl rfl

/-- C10: on a successful query with at least one hit, the result is the
hit blocks joined by blank lines in the order the index returned them; a
hit whose payload lacks a `"source"` key renders the literal source
`"Unknown"`, one whose payload lacks a `"text"` key renders an empty text
part, and no missing key can make `search` raise — it still returns the
joined string. -/
theorem search_missing_payload_keys (embedQ : Except String (List V))
    (doSearch : List V → Except String (List Hit)) (qv : List V)
    (hits : List Hit) (hq : embedQ = .ok qv) (hs : doSearch qv = .ok hits)
    (hne : hits ≠ []) :
    search embedQ doSearch = String.intercalate "\n\n" (hits.map formatHit) ∧
      ∀ h ∈ hits,
        (dictGet h.payload "source" = none →
          formatHit h =
            "[Source: Unknown]\n" ++
              pyStr ((dictGet h.payload "text").getD (.str ""))) ∧
        (dictGet h.payload "text" = none →
          formatHit h =
            "[Source: " ++
              pyStr ((dictGet h.payload "source").getD (.str "Unknown")) ++
              "]\n") := by
  subst hq
  refine ⟨?_, ?_⟩
  · simp [search, hs, hne]
  · intro h _
    refine ⟨?_, ?_⟩
    · intro hsrc
      rw [formatHit, hsrc]
      rfl
    · intro htxt
      rw [formatHit, htxt]
      show _ ++ pyStr (.str "") = _
      rw [pyStr]
      simp

/-- Witness for C10 at a single hit whose payload is the empty dict (both
keys missing): the result is `"[Source: Unknown]\n"`. -/
theorem search_missing_payload_keys_witness :
    search (Except.ok [(0 : Nat)]) (fun _ => Except.ok [(⟨[]⟩ : Hit)]) =
        String.intercalate "\n\n" ([(⟨[]⟩ : Hit)].map formatHit) ∧
      ∀ h ∈ [(⟨[]⟩ : Hit)],
        (dictGet h.payload "source" = none →
          formatHit h =
            "[Source: Unknown]\n" ++
              pyStr ((dictGet h.payload "text").getD (.str ""))) ∧
        (dictGet h.payload "text" = none →
          formatHit h =
            "[Source: " ++
              pyStr ((dictGet h.payload "source").getD (.str "Unknown")) ++
              "]\n") :=
  search_missing_payload_keys (Except.ok [(0 : Nat)])
    (fun _ => Except.ok [(⟨[]⟩ : Hit)]) [(0 : Nat)] [(⟨[]⟩ : Hit)]
    rfl rfl (by simp)

/-! ### `KnowledgeBase.__init__`: collection provisioning -/

/-- Qdrant distance metric of a collection; the code only ever creates
cosine collections, but an existing collection could carry any metric. -/
inductive PyDistance where
  | cosine
  | other (name : String)
deriving DecidableEq, Repr

/-- The `VectorParams` of a collection: its size (dimension) and metric. -/
structure CollectionParams where
  size : Nat
  distance : PyDistance
deriving DecidableEq, Repr

/-- The vector store: named collections with their params, in creation
order. -/
structure DBState where
  collections : List (String × CollectionParams)
deriving DecidableEq, Repr

/-- `self.collection_name`. -/
def collectionName : String := "anantya_docs"

/-- `client.get_collection(n).config.params.vectors`. -/
def getCollection (st : DBState) (n : String) : Option CollectionParams :=
  (st.collections.find? (fun p => p.1 == n)).map (·.2)

/-- `client.delete_collection(n)`. -/
def deleteCollection (st : DBState) (n : String) : DBState :=
  ⟨st.collections.filter (fun p => p.1 != n)⟩

/-- `client.create_collection(n, VectorParams(size=dim, distance=COSINE))`. -/
def createCollection (st : DBState) (n : String) (dim : Nat) : DBState :=
  ⟨st.collections ++ [(n, ⟨dim, .cosine⟩)]⟩

/-- What `__init__` did: whether it deleted the old collection, whether it
created a new one, and the dimension it settled on. -/
structure InitTrace where
  deletedOld : Bool
  createdNew : Bool
  actualDim : Nat
deriving DecidableEq, Repr

/-- The dynamic-setup part of `KnowledgeBase.__init__`
(src/app/database.py lines 22-54): probe the embedding dimension (falling
back to 768 when the probe call raises), then, if a collection named
`anantya_docs` exists whose recorded size differs from the probed
dimension, delete it (the code also removes its name from the snapshot
list, which matches re-checking membership in the updated state); finally
create the collection with the probed size and cosine distance whenever
the name is not (or no longer) present.  All of this runs inside the
constructor, so it completes before any `upsert_documents` call can issue
an upsert on the instance. -/
def initKB (probe : Except String (List V)) (st : DBState) :
    DBState × InitTrace :=
  let actualDim := match probe with
    | .ok embedding => embedding.length
    | .error _ => 768
  let afterCheck :=
    if collectionName ∈ st.collections.map Prod.fst then
      match getCollection st collectionName with
      | some info =>
        if info.size ≠ actualDim then
          (deleteCollection st collectionName, true)
        else (st, false)
      | none => (st, false)
    else (st, false)
  if collectionName ∈ afterCheck.1.collections.map Prod.fst then
    (afterCheck.1, ⟨afterCheck.2, false, actualDim⟩)
  else
    (createCollection afterCheck.1 collectionName actualDim,
      ⟨afterCheck.2, true, actualDim⟩)

theorem mem_of_getCollection_some (st : DBState) (n : String)
    (c : CollectionParams) (h : getCollection st n = some c) :
    n ∈ st.collections.map Prod.fst := by
  rw [getCollection] at h
  cases hf : st.collections.find? (fun p => p.1 == n) with
  | none => rw [hf] at h; simp at h
  | some p =>
    have hmem := List.mem_of_find?_eq_some hf
    have hp1 : p.1 = n := by
      simpa using (List.find?_eq_some.mp hf).1
    rw [← hp1]
    exact List.mem_map_of_mem Prod.fst hmem

theorem not_mem_after_delete (st : DBState) (n : String) :
    n ∉ (deleteCollection st n).collections.map Prod.fst := by
  rw [deleteCollection]
  intro hc
  obtain ⟨p, hpmem, hp1⟩ := List.mem_map.mp hc
  have hkeep := (List.mem_filter.mp hpmem).2
  rw [hp1] at hkeep
  simp at hkeep

theorem find?_filter_append (t : List (String × CollectionParams))
    (n : String) (c : CollectionParams) :
    ((t.filter (fun p => p.1 != n)) ++ [(n, c)]).find? (fun p => p.1 == n) =
      some (n, c) := by
  induction t with
  | nil => simp [List.find?_cons]
  | cons p t ih =>
    rw [List.filter_cons]
    by_cases hp : p.1 == n
    · have hb : (p.1 != n) = false := by simp [bne, hp]
      rw [hb]
      simp only [Bool.false_eq_true, if_false]
      exact ih
    · have hb : (p.1 != n) = true := by simp [bne, hp]
      rw [hb]
      simp only [if_true]
      have hf : (p.1 == n) = false := by
        cases hpb : (p.1 == n)
        · rfl
        · exact absurd hpb hp
      rw [List.cons_append, List.find?_cons, hf]
      exact ih

theorem getCollection_create_after_delete (st : DBState) (n : String)
    (dim : Nat) :
    getCollection (createCollection (deleteCollection st n) n dim) n =
      some ⟨dim, .cosine⟩ := by
  rw [createCollection, deleteCollection, getCollection]
  rw [find?_filter_append]
  rfl

/-- C2: with a successful dimension probe returning a vector of length
`D2` and an existing `anantya_docs` collection of recorded size `D1`: if
`D1 ≠ D2`, `__init__` deletes the old collection and creates a fresh one
of size `D2` with cosine distance (the trace records delete-then-create,
and the constructor finishes before any upsert can be issued); if
`D1 = D2`, the store is left completely unchanged, nothing deleted or
created. -/
theorem initKB_dimension_reconcile (st : DBState) (emb : List V)
    (d1 : Nat) (dist : PyDistance)
    (hex : getCollection st collectionName = some ⟨d1, dist⟩) :
    (d1 ≠ emb.length →
      initKB (.ok emb) st =
        (createCollection (deleteCollection st collectionName)
            collectionName emb.length,
          ⟨true, true, emb.length⟩) ∧
      getCollection (initKB (.ok emb) st).1 collectionName =
        some ⟨emb.length, .cosine⟩) ∧
    (d1 = emb.length →
      initKB (.ok emb) st = (st, ⟨false, false, emb.length⟩)) := by
  have hmem := mem_of_getCollection_some st collectionName ⟨d1, dist⟩ hex
  constructor
  · intro hne
    have heq : initKB (.ok emb) st =
        (createCollection (deleteCollection st collectionName)
          collectionName emb.length, ⟨true, true, emb.length⟩) := by
      rw [initKB]
      rw [if_pos hmem, hex]
      dsimp only
      rw [if_pos hne]
      dsimp only
      rw [if_neg (not_mem_after_delete st collectionName)]
    refine ⟨heq, ?_⟩
    rw [heq]
    exact getCollection_create_after_delete st collectionName emb.length
  · intro hd
    subst hd
    rw [initKB]
    rw [if_pos hmem, hex]
    dsimp only
    rw [if_neg (show ¬ emb.length ≠ emb.length by simp)]
    dsimp only
    rw [if_pos hmem]

/-- Witness for C2 at a store holding `anantya_docs` with size 768 and a
probe vector of length 2. -/
theorem initKB_dimension_reconcile_witness :
    ((768 : Nat) ≠ ([(), ()] : List Unit).length →
      initKB (.ok ([(), ()] : List Unit))
          ⟨[(collectionName, ⟨768, .cosine⟩)]⟩ =
        (createCollection
            (deleteCollection ⟨[(collectionName, ⟨768, .cosine⟩)]⟩
              collectionName)
            collectionName ([(), ()] : List Unit).length,
          ⟨true, true, ([(), ()] : List Unit).length⟩) ∧
      getCollection
          (initKB (.ok ([(), ()] : List Unit))
            ⟨[(collectionName, ⟨768, .cosine⟩)]⟩).1 collectionName =
        some ⟨([(), ()] : List Unit).length, .cosine⟩) ∧
    ((768 : Nat) = ([(), ()] : List Unit).length →
      initKB (.ok ([(), ()] : List Unit))
          ⟨[(collectionName, ⟨768, .cosine⟩)]⟩ =
        (⟨[(collectionName, ⟨768, .cosine⟩)]⟩,
          ⟨false, false, ([(), ()] : List Unit).length⟩)) :=
  initKB_dimension_reconcile ⟨[(collectionName, ⟨768, .cosine⟩)]⟩
    [(), ()] 768 .cosine (by rw [getCollection]; simp)

/-! ### `ingest.load_data` -/

/-- One line of the JSONL source file, as seen by the loop body of
`load_data` (src/ingest.py lines 23-41): either `json.loads` raises a
`JSONDecodeError` (`invalid`), or it yields a record with optional `id`,
optional `text`, and the `metadata` object that `item.get("metadata", {})`
defaults to the empty dict. -/
inductive SrcLine where
  | invalid
  | record (id : Option String) (text : Option String) (meta : Dict)
deriving DecidableEq, Repr

/-- State accumulated by `load_data`: the three parallel lists handed to
`upsert_documents`, plus the warnings printed along the way. -/
structure LoadAcc where
  docs : List String
  metadatas : List Dict
  ids : List String
  warnings : List String
deriving DecidableEq, Repr

/-- Python truthiness of `item.get("text")`: `None` and `""` are falsy. -/
def truthyText : Option String → Bool
  | none => false
  | some s => !(s == "")

/-- The loop body for one source line (`freshId` models the
`str(uuid.uuid4())` generated when the record has no truthy id).  A
`JSONDecodeError` prints `"Skipping invalid JSON line"` and continues; a
record whose `text` is missing or falsy is simply not appended — the code
prints no warning for it. -/
def processLine (freshId : String) (acc : LoadAcc) : SrcLine → LoadAcc
  | .invalid =>
    { acc with warnings := acc.warnings ++ ["Skipping invalid JSON line"] }
  | .record id text meta =>
    let docId := match id with
      | some s => if s == "" then freshId else s
      | none => freshId
    if truthyText text then
      { acc with
        ids := acc.ids ++ [docId]
        docs := acc.docs ++ [text.getD ""]
        metadatas := acc.metadatas ++ [meta] }
    else acc

/-- The `for line in f:` reading loop, with `uuids k` supplying the fresh
identifier available on the `k`-th line. -/
def loadLoop (uuids : Nat → String) (k : Nat) (acc : LoadAcc) :
    List SrcLine → LoadAcc
  | [] => acc
  | l :: rest => loadLoop uuids (k + 1) (processLine (uuids k) acc l) rest

/-- `load_data`'s collection phase over the whole source file. -/
def loadData (uuids : Nat → String) (lines : List SrcLine) : LoadAcc :=
  loadLoop uuids 0 ⟨[], [], [], []⟩ lines

/-- The texts `load_data` keeps: those of the valid lines whose `text` is
truthy, in file order. -/
def collectedTexts (lines : List SrcLine) : List String :=
  lines.filterMap fun l => match l with
    | .invalid => none
    | .record _ text _ =>
      if truthyText text then some (text.getD "") else none

/-- The metadata dicts kept, parallel to `collectedTexts`. -/
def collectedMetas (lines : List SrcLine) : List Dict :=
  lines.filterMap fun l => match l with
    | .invalid => none
    | .record _ text meta =>
      if truthyText text then some meta else none

def isInvalid : SrcLine → Bool
  | .invalid => true
  | .record _ _ _ => false

/-- Number of lines on which `json.loads` raises. -/
def invalidCount (lines : List SrcLine) : Nat :=
  (lines.filter isInvalid).length

theorem loadLoop_spec (uuids : Nat → String) (lines : List SrcLine) :
    ∀ (k : Nat) (acc : LoadAcc),
      (loadLoop uuids k acc lines).docs =
          acc.docs ++ collectedTexts lines ∧
        (loadLoop uuids k acc lines).metadatas =
          acc.metadatas ++ collectedMetas lines ∧
        (loadLoop uuids k acc lines).ids.length =
          acc.ids.length + (collectedTexts lines).length ∧
        (loadLoop uuids k acc lines).warnings.length =
          acc.warnings.length + invalidCount lines := by
  induction lines with
  | nil =>
    intro k acc
    simp [loadLoop, collectedTexts, collectedMetas, invalidCount]
  | cons l t ih =>
    intro k acc
    rw [loadLoop]
    obtain ⟨ihd, ihm, ihi, ihw⟩ := ih (k + 1) (processLine (uuids k) acc l)
    cases l with
    | invalid =>
      rw [ihd, ihm, ihi, ihw]
      simp [processLine, collectedTexts, collectedMetas, invalidCount,
        isInvalid, List.filter_cons]
      omega
    | record id text meta =>
      rw [ihd, ihm, ihi, ihw]
      by_cases ht : truthyText text
      · simp [processLine, ht, collectedTexts, collectedMetas, invalidCount,
          isInvalid, List.filter_cons]
        omega
      · simp [processLine, ht, collectedTexts, collectedMetas, invalidCount,
          isInvalid, List.filter_cons]

/-- C7 counterexample: a syntactically valid line whose record has no
`"text"` field is skipped (nothing is collected from it) but `load_data`
prints no warning at all for it, contradicting "skipped per-record with a
warning" for the missing-required-field case. -/
theorem loadData_missing_text_no_warning :
    (loadData (fun _ => "uuid-0") [SrcLine.record none none []]).docs = [] ∧
      (loadData (fun _ => "uuid-0")
        [SrcLine.record none none []]).warnings = [] := by
  constructor <;> rfl

/-- C7 (amended): a source line that is not valid JSON is skipped with the
warning `"Skipping invalid JSON line"` (one warning per invalid line); a
record missing the required text field (or whose text is falsy) is skipped
silently, with no warning; in both cases ingestion never aborts — the
documents collected and passed on to `upsert_documents` are exactly the
truthy texts of the valid records on the remaining lines, in order, with
their metadata and one id per document. -/
theorem loadData_skips_and_continues (uuids : Nat → String)
    (lines : List SrcLine) :
    (loadData uuids lines).docs = collectedTexts lines ∧
      (loadData uuids lines).metadatas = collectedMetas lines ∧
      (loadData uuids lines).ids.length = (collectedTexts lines).length ∧
      (loadData uuids lines).warnings.length = invalidCount lines := by
  obtain ⟨hd, hm, hi, hw⟩ := loadLoop_spec uuids lines 0 ⟨[], [], [], []⟩
  rw [loadData]
  exact ⟨by simpa using hd, by simpa using hm, by simpa using hi,
    by simpa using hw⟩

end RagCore
